import Mathlib

/-!
Formal model of the scaletrail selection-and-filtering core.

The definitions below are a shallow embedding of the Python sources
`scaletrail/utils/linode.py`, `scaletrail/utils/cloudflare.py` and
`scaletrail/cli.py`.  Conventions used throughout:

- A JSON dict field is an `Option` field; where the code distinguishes a key
  that is present with value `null` from an absent key (`d.get(k, default)`
  with a non-`None` default), the field is a double `Option`: the outer layer
  is key presence, the inner layer is the JSON `null`.
- JSON numbers are `ℚ` (prices) or `ℤ` (sizes); Python `float(x)` applied to a
  possibly-`None` value is modelled as an `Option` result, `none` meaning the
  call raises `TypeError` and the surrounding call produces no result.
- `datetime.fromisoformat`/`datetime.now(timezone.utc)` are external library
  state; they are threaded in explicitly as a parse function
  `fromiso : String → Option ℤ` (returning a UTC instant, `none` on parse
  failure) and an instant `now : ℤ`.
- Python `list.sort`/`sorted` (stable, ascending by key) is modelled by
  `List.insertionSort` with the relation `key a ≤ key b`, which computes the
  same list: a stable ascending sort of a list by a key into a linear order
  is unique.
-/

namespace Scaletrail

/-- One entry of a `region_prices` list: `\x7bid, hourly, monthly\x7d`.
Outer `Option` is key presence, inner `Option` is JSON `null`. -/
structure RegionPrice where
  id : Option (Option String)
  hourly : Option (Option ℚ)
  monthly : Option (Option ℚ)
  deriving DecidableEq

/-- A base price block `\x7bhourly, monthly\x7d`. -/
structure Price where
  hourly : Option (Option ℚ)
  monthly : Option (Option ℚ)
  deriving DecidableEq

/-- The `addons.backups` sub-record of a catalog item.  `none` at the use site
stands for the Python-falsy cases (key absent, `null`, or empty dict). -/
structure Backups where
  price : Option Price
  region_prices : Option (List RegionPrice)
  deriving DecidableEq

/-- A raw catalog item from the provider types payload (`linode.py`). -/
structure CatalogItem where
  id : Option String
  label : Option String
  «class» : Option String
  vcpus : Option ℤ
  memory : Option ℤ
  disk : Option ℤ
  transfer : Option ℤ
  gpus : Option ℤ
  network_out : Option ℤ
  price : Option Price
  region_prices : Option (List RegionPrice)
  addons_backups : Option Backups
  deriving DecidableEq

/-- Python `str.lower()` (ASCII model), as a computable map over the
character list so that concrete instances reduce in the kernel. -/
def str_lower (s : String) : String :=
  ⟨s.data.map Char.toLower⟩

/-- Python `str.upper()` (ASCII model). -/
def str_upper (s : String) : String :=
  ⟨s.data.map Char.toUpper⟩

/-- Python `str.strip()`: drop leading and trailing whitespace. -/
def str_strip (s : String) : String :=
  ⟨((s.data.dropWhile Char.isWhitespace).reverse.dropWhile Char.isWhitespace).reverse⟩

/-- Base hourly price: `(item.get("price", \x7b\x7d) or \x7b\x7d).get("hourly")`. -/
def base_hourly (item : CatalogItem) : Option ℚ :=
  ((item.price.getD ⟨none, none⟩).hourly).join

/-- Base monthly price: `(item.get("price", \x7b\x7d) or \x7b\x7d).get("monthly")`. -/
def base_monthly (item : CatalogItem) : Option ℚ :=
  ((item.price.getD ⟨none, none⟩).monthly).join

/-- The iterated list `item.get("region_prices", []) or []`. -/
def region_prices_list (item : CatalogItem) : List RegionPrice :=
  item.region_prices.getD []

/-- The loop guard `rp.get("id") == region_id` of `_pick_price`. -/
def rp_matches (region_id : String) (rp : RegionPrice) : Bool :=
  rp.id.join == some region_id

/-- The final `\x7b"hourly": float(hourly), "monthly": float(monthly)\x7d` step:
`float(None)` raises `TypeError`, modelled as `none`. -/
def float_pair (h m : Option ℚ) : Option (ℚ × ℚ) :=
  match h, m with
  | some a, some b => some (a, b)
  | _, _ => none

/-- Model of `_pick_price(item, region_id)`: start from the base price, let the
first `region_prices` entry whose `id` equals `region_id` override the running
values field-by-field (`rp.get("hourly", hourly)`), then convert both to float. -/
def pick_price (item : CatalogItem) (region_id : String) : Option (ℚ × ℚ) :=
  let h := base_hourly item
  let m := base_monthly item
  match (region_prices_list item).find? (rp_matches region_id) with
  | some rp => float_pair (rp.hourly.getD h) (rp.monthly.getD m)
  | none => float_pair h m

/-- Model of `_pick_backup_price(item, region_id)`.  Outer `none` means the
call raised (`float(None)`); `some none` is the Python `None` return for a
missing backups addon. -/
def pick_backup_price (item : CatalogItem) (region_id : String) :
    Option (Option (ℚ × ℚ)) :=
  match item.addons_backups with
  | none => some none
  | some backups =>
    let base := backups.price.getD ⟨none, none⟩
    let h := base.hourly.join
    let m := base.monthly.join
    let hm :=
      match (backups.region_prices.getD []).find? (rp_matches region_id) with
      | some rp => float_pair (rp.hourly.getD h) (rp.monthly.getD m)
      | none => float_pair h m
    match hm with
    | some p => some (some p)
    | none => none

/-- The flattened instance record built by `get_instances_for_region`. -/
structure NormalizedInstance where
  id : Option String
  label : Option String
  «class» : Option String
  vcpus : Option ℤ
  memory_mb : Option ℤ
  disk_mb : Option ℤ
  transfer_gb : Option ℤ
  gpus : Option ℤ
  network_out_mbps : Option ℤ
  price_hourly : ℚ
  price_monthly : ℚ
  backups_hourly : Option ℚ
  backups_monthly : Option ℚ
  deriving DecidableEq

/-- Negation of the skip test
`if include_classes and itm.get("class") not in include_classes: continue`.
A missing class (`None`) is never a member of a list of strings. -/
def class_keep (include_classes : Option (List String)) (itm : CatalogItem) : Bool :=
  match include_classes with
  | none => true
  | some l =>
    l.isEmpty ||
      (match itm.«class» with
       | some c => l.contains c
       | none => false)

/-- The dict appended to `out` by `get_instances_for_region` for one item. -/
def normalize_instance (itm : CatalogItem) (price : ℚ × ℚ)
    (backup_price : Option (ℚ × ℚ)) : NormalizedInstance :=
  ⟨itm.id, itm.label, itm.«class», itm.vcpus, itm.memory, itm.disk, itm.transfer,
    itm.gpus, itm.network_out, price.1, price.2,
    backup_price.map Prod.fst, backup_price.map Prod.snd⟩

/-- The provider types payload: `resp.get("data", []) or []`. -/
structure TypesResp where
  data : Option (List CatalogItem)

/-- The item loop of `get_instances_for_region`; a raised `TypeError` from a
price conversion aborts the whole call (`none`), discarding the partial list. -/
def instances_go (region_id : String) (include_classes : Option (List String)) :
    List CatalogItem → Option (List NormalizedInstance)
  | [] => some []
  | itm :: rest =>
    if class_keep include_classes itm then
      match pick_price itm region_id, pick_backup_price itm region_id with
      | some price, some bp =>
        (instances_go region_id include_classes rest).map
          (fun tail => normalize_instance itm price bp :: tail)
      | _, _ => none
    else instances_go region_id include_classes rest

/-- Model of `get_instances_for_region(resp, region_id, include_classes)`. -/
def get_instances_for_region (resp : TypesResp) (region_id : String)
    (include_classes : Option (List String)) : Option (List NormalizedInstance) :=
  instances_go region_id include_classes (resp.data.getD [])

/-- The `choose_instance` display ordering key relation:
`sorted(instances, key=lambda x: x.get("price_monthly", 0))`. -/
def price_le (a b : NormalizedInstance) : Prop :=
  a.price_monthly ≤ b.price_monthly

instance : DecidableRel price_le :=
  fun a b => inferInstanceAs (Decidable (a.price_monthly ≤ b.price_monthly))

instance : IsTotal NormalizedInstance price_le :=
  ⟨fun a b => le_total a.price_monthly b.price_monthly⟩

instance : IsTrans NormalizedInstance price_le :=
  ⟨fun _ _ _ h h' => le_trans h h'⟩

/-- The sorted list `instances_sorted` built at the top of `choose_instance`:
Python `sorted` is a stable ascending sort by the key. -/
def choose_instance_sorted (instances : List NormalizedInstance) :
    List NormalizedInstance :=
  instances.insertionSort price_le

/-- A raw image from the provider images payload. -/
structure RawImage where
  id : Option String
  label : Option String
  vendor : Option String
  description : Option String
  size : Option ℤ
  created : Option String
  updated : Option String
  is_public : Option Bool
  deprecated : Option Bool
  eol : Option String
  regions : Option (List String)
  status : Option String
  capabilities : Option (List String)
  deriving DecidableEq

/-- The normalized image record appended to `out` by
`get_operating_systems_for_region`. -/
structure NormalizedImage where
  id : Option String
  label : Option String
  vendor : Option String
  description : String
  size : Option ℤ
  created : Option String
  updated : Option String
  is_public : Bool
  deprecated : Bool
  eol : Option String
  eol_passed : Bool
  regions : Option (List String)
  status : Option String
  capabilities : List String
  deriving DecidableEq

/-- The `dt.replace("Z", "")` step of `_parse_iso`: remove every `Z`. -/
def strip_z (s : String) : String :=
  ⟨s.data.filter (fun c => c ≠ 'Z')⟩

/-- Model of `_parse_iso(dt)`.  `fromiso` stands for the external
`datetime.fromisoformat(·).replace(tzinfo=timezone.utc)` call, returning a UTC
instant, `none` when it raises.  A `None` or empty (falsy) input is `none`. -/
def parse_iso (fromiso : String → Option ℤ) (dt : Option String) : Option ℤ :=
  match dt with
  | none => none
  | some s => if s = "" then none else fromiso (strip_z s)

/-- Model of `_eol_has_passed(eol)`: true iff the field parses and
`datetime.now(timezone.utc) >= dt`. -/
def eol_has_passed (fromiso : String → Option ℤ) (now : ℤ) (eol : Option String) : Bool :=
  match parse_iso fromiso eol with
  | none => false
  | some t => decide (t ≤ now)

/-- The `vendor_allow` set built by `get_operating_systems_for_region`:
`None` unless `include_vendors` is truthy, else the stripped, lower-cased,
non-blank entries (kept as a list; only membership is ever used). -/
def mk_vendor_allow (include_vendors : Option (List String)) : Option (List String) :=
  match include_vendors with
  | none => none
  | some l =>
    if l.isEmpty then none
    else some (l.filterMap (fun v => if str_strip v = "" then none else some (str_lower (str_strip v))))

/-- The `need_caps` set: `None` unless `required_capabilities` is truthy, else
the stripped non-blank entries. -/
def mk_need_caps (required_capabilities : Option (List String)) : Option (List String) :=
  match required_capabilities with
  | none => none
  | some l =>
    if l.isEmpty then none
    else some (l.filterMap (fun c => if str_strip c = "" then none else some (str_strip c)))

/-- Conjunction of the per-image `continue` tests of
`get_operating_systems_for_region`, in source order: public, vendor allow-list
(`vendor_allow is not None`), status, capabilities (`if need_caps and not
subset`), region gating, deprecated-or-EOL. -/
def keep_image (fromiso : String → Option ℤ) (now : ℤ) (region_id : String)
    (vendor_allow need_caps : Option (List String))
    (public_only exclude_eol require_status_available : Bool) (img : RawImage) : Bool :=
  (!public_only || img.is_public.getD false) &&
  (match vendor_allow with
   | none => true
   | some allow => allow.contains (str_lower (str_strip (img.vendor.getD "")))) &&
  (!require_status_available || img.status == some "available") &&
  (match need_caps with
   | none => true
   | some caps => caps.isEmpty || caps.all (fun c => (img.capabilities.getD []).contains c)) &&
  (match img.regions with
   | none => true
   | some rs => rs.isEmpty || rs.contains region_id) &&
  (!exclude_eol || (!(img.deprecated.getD false) && !(eol_has_passed fromiso now img.eol)))

/-- The dict appended to `out` for a surviving image. -/
def normalize_image (fromiso : String → Option ℤ) (now : ℤ) (img : RawImage) :
    NormalizedImage :=
  let vendor := str_strip (img.vendor.getD "")
  { id := img.id
    label := img.label
    vendor := if vendor = "" then none else some vendor
    description := img.description.getD ""
    size := img.size
    created := img.created
    updated := img.updated
    is_public := img.is_public.getD false
    deprecated := img.deprecated.getD false
    eol := img.eol
    eol_passed := eol_has_passed fromiso now img.eol
    regions := img.regions
    status := img.status
    capabilities := img.capabilities.getD [] }

/-- Strict lexicographic comparison of character lists by code point, the
order Python uses to compare strings. -/
def chars_lt : List Char → List Char → Bool
  | _, [] => false
  | [], _ :: _ => true
  | a :: as, b :: bs => decide (a < b) || (decide (a = b) && chars_lt as bs)

/-- Python `<` on strings. -/
def str_lt (a b : String) : Bool :=
  chars_lt a.data b.data

/-- Python `<=` on pairs of strings (tuple comparison): lexicographic on the
first component, then non-strict on the second. -/
def pair_le (a b : String × String) : Bool :=
  str_lt a.1 b.1 || (decide (a.1 = b.1) && (str_lt a.2 b.2 || decide (a.2 = b.2)))

/-- The final sort key of `get_operating_systems_for_region`:
`((x.get("vendor") or "").lower(), (x.get("label") or "").lower())`. -/
def image_key (x : NormalizedImage) : String × String :=
  (str_lower (x.vendor.getD ""), str_lower (x.label.getD ""))

/-- Ordering relation of the final `out.sort(key=...)`. -/
def image_le (a b : NormalizedImage) : Prop :=
  pair_le (image_key a) (image_key b) = true

instance : DecidableRel image_le :=
  fun a b => inferInstanceAs (Decidable (pair_le (image_key a) (image_key b) = true))

/-- The provider images payload: `images_resp.get("data", []) or []`. -/
structure ImagesResp where
  data : Option (List RawImage)

/-- Model of `get_operating_systems_for_region` (the spec's `filter_images`):
filter by the conjunction of predicates, normalize, then stable-sort by
`(vendor lowered, label lowered)`. -/
def filter_images (fromiso : String → Option ℤ) (now : ℤ) (images_resp : ImagesResp)
    (region_id : String) (include_vendors : Option (List String))
    (public_only exclude_eol require_status_available : Bool)
    (required_capabilities : Option (List String)) : List NormalizedImage :=
  let vendor_allow := mk_vendor_allow include_vendors
  let need_caps := mk_need_caps required_capabilities
  (((images_resp.data.getD []).filter
      (keep_image fromiso now region_id vendor_allow need_caps
        public_only exclude_eol require_status_available)).map
    (normalize_image fromiso now)).insertionSort image_le

/-- A planned DNS record row of `_planned_dns_records` (cli.py). -/
structure PlannedDnsRecord where
  name : String
  type : String
  content : String
  proxy : String
  ttl : String
  deriving DecidableEq

/-- Model of `_planned_dns_records(root, env_name)` (the spec's
`plan_dns_records`).  The non-prod branch is guarded by
`env_name and env_name.lower() not in ("prod", "production")`. -/
def planned_dns_records (root : String) (env_name : String) : List PlannedDnsRecord :=
  if env_name ≠ "" ∧ str_lower env_name ≠ "prod" ∧ str_lower env_name ≠ "production" then
    [⟨env_name ++ "-api." ++ root, "A", "TBD (after create)", "Proxied", "Auto"⟩]
  else
    [⟨"api." ++ root, "A", "TBD (after create)", "Proxied", "Auto"⟩,
      ⟨"www." ++ root, "CNAME", root, "Proxied", "Auto"⟩]

/-- An existing DNS record as consumed by `subdomain_is_available`. -/
structure DnsRecord where
  name : Option String
  type : Option String
  deriving DecidableEq

/-- The target hostname computed by `subdomain_is_available`:
`root_domain.lower()` when `not subdomain or subdomain in ("@", "",
root_domain)`, else the joined name lowered. -/
def dns_target (subdomain root_domain : String) : String :=
  if subdomain = "" ∨ subdomain = "@" ∨ subdomain = root_domain then
    str_lower root_domain
  else str_lower (subdomain ++ "." ++ root_domain)

/-- The loop body test of `subdomain_is_available` for one record:
`record_type in ("A", "CNAME") and record_name == target_name`. -/
def record_blocks (target : String) (record : DnsRecord) : Bool :=
  (str_upper (record.type.getD "") == "A" || str_upper (record.type.getD "") == "CNAME") &&
    str_lower (record.name.getD "") == target

/-- Model of `subdomain_is_available(records, subdomain, root_domain)`
(cloudflare.py): `False` at the first blocking record, else `True`. -/
def subdomain_is_available (records : List DnsRecord) (subdomain root_domain : String) :
    Bool :=
  !(records.any (record_blocks (dns_target subdomain root_domain)))

/-- Model of `root_domain_is_availabile(records, root_domain)` (source spelling). -/
def root_domain_is_availabile (records : List DnsRecord) (root_domain : String) : Bool :=
  subdomain_is_available records "" root_domain

/-- The surviving, normalized images before the final sort; `filter_images`
is definitionally `(images_presort ...).insertionSort image_le`. -/
def images_presort (fromiso : String → Option ℤ) (now : ℤ) (images_resp : ImagesResp)
    (region_id : String) (include_vendors : Option (List String))
    (public_only exclude_eol require_status_available : Bool)
    (required_capabilities : Option (List String)) : List NormalizedImage :=
  ((images_resp.data.getD []).filter
      (keep_image fromiso now region_id (mk_vendor_allow include_vendors)
        (mk_need_caps required_capabilities) public_only exclude_eol
        require_status_available)).map
    (normalize_image fromiso now)

/-- A concrete stand-in for the external ISO-8601 parser, used in witnesses. -/
def fromiso_w : String → Option ℤ :=
  fun s => if s = "2025-01-01T04:00:00" then some 100 else none

/-- A region-price override for `us-east` that sets only `hourly`. -/
def rp_w : RegionPrice := ⟨some (some "us-east"), some (some 9), none⟩

/-- A priced catalog item carrying the `rp_w` override. -/
def item_w : CatalogItem :=
  ⟨some "g6-nanode-1", some "Nanode 1GB", some "nanode", some 1, some 1024, some 25600,
    some 1000, some 0, some 1000, some ⟨some (some 3), some (some 5)⟩, some [rp_w], none⟩

/-- A catalog item with every field absent (no price anywhere). -/
def item_bare : CatalogItem :=
  ⟨none, none, none, none, none, none, none, none, none, none, none, none⟩

/-- A priced `standard`-class catalog item with no overrides and no backups. -/
def item_std : CatalogItem :=
  ⟨some "g6-standard-2", some "Linode 4GB", some "standard", some 2, some 4096, some 81920,
    some 4000, some 0, some 4000, some ⟨some (some 2), some (some 10)⟩, none, none⟩

/-- A priced `nanode`-class catalog item. -/
def item_nano : CatalogItem :=
  ⟨some "g6-nanode-1", some "Nanode 1GB", some "nanode", some 1, some 1024, some 25600,
    some 1000, some 0, some 1000, some ⟨some (some 1), some (some 5)⟩, none, none⟩

/-- A `standard`-class catalog item with no price at all. -/
def item_unpriced : CatalogItem :=
  ⟨some "g6-broken", none, some "standard", none, none, none, none, none, none,
    none, none, none⟩

/-- A two-item types payload. -/
def resp_w : TypesResp := ⟨some [item_nano, item_std]⟩

/-- The output `get_instances_for_region resp_w "us-east" (some ["standard"])`
computes. -/
def out_w : List NormalizedInstance :=
  [⟨some "g6-standard-2", some "Linode 4GB", some "standard", some 2, some 4096,
    some 81920, some 4000, some 0, some 4000, 2, 10, none, none⟩]

/-- A public, available image whose `eol` parses (under `fromiso_w`) to 100. -/
def img_live : RawImage :=
  ⟨some "linode/ubuntu24.04", some "Ubuntu 24.04 LTS", some "Ubuntu",
    some "Ubuntu 24.04 LTS", some 3500, some "2024-04-25", some "2024-04-25",
    some true, some false, some "2025-01-01T04:00:00", none, some "available",
    some ["cloud-init"]⟩

/-- Like `img_live` but restricted to region `us-east` and without an `eol`. -/
def img_regional : RawImage :=
  { img_live with regions := some ["us-east"], eol := none }

/-- Like `img_live` but without an `eol`. -/
def img_noeol : RawImage :=
  { img_live with eol := none }

theorem chars_lt_irrefl : ∀ l : List Char, chars_lt l l = false
  | [] => rfl
  | a :: as => by simp [chars_lt, chars_lt_irrefl as]

theorem chars_lt_trans : ∀ {a b c : List Char},
    chars_lt a b = true → chars_lt b c = true → chars_lt a c = true := by
  intro a
  induction a with
  | nil =>
    intro b c hab hbc
    cases b <;> cases c <;> simp_all [chars_lt]
  | cons x xs ih =>
    intro b c hab hbc
    cases b with
    | nil => simp [chars_lt] at hab
    | cons y ys =>
      cases c with
      | nil => simp [chars_lt] at hbc
      | cons z zs =>
        simp only [chars_lt, Bool.or_eq_true, Bool.and_eq_true, decide_eq_true_eq]
          at hab hbc ⊢
        rcases hab with h1 | ⟨h1e, h1r⟩
        · rcases hbc with h2 | ⟨h2e, h2r⟩
          · exact Or.inl (lt_trans h1 h2)
          · exact Or.inl (h2e ▸ h1)
        · rcases hbc with h2 | ⟨h2e, h2r⟩
          · exact Or.inl (by rw [h1e]; exact h2)
          · exact Or.inr ⟨h1e.trans h2e, ih h1r h2r⟩

theorem chars_lt_trichotomy : ∀ a b : List Char,
    chars_lt a b = true ∨ a = b ∨ chars_lt b a = true := by
  intro a
  induction a with
  | nil => intro b; cases b <;> simp [chars_lt]
  | cons x xs ih =>
    intro b
    cases b with
    | nil => simp [chars_lt]
    | cons y ys =>
      rcases lt_trichotomy x y with h | h | h
      · exact Or.inl (by simp [chars_lt, h])
      · subst h
        rcases ih ys with h2 | h2 | h2
        · exact Or.inl (by simp [chars_lt, h2])
        · exact Or.inr (Or.inl (by rw [h2]))
        · exact Or.inr (Or.inr (by simp [chars_lt, h2]))
      · exact Or.inr (Or.inr (by simp [chars_lt, h]))

theorem str_lt_trans {a b c : String} (h₁ : str_lt a b = true)
    (h₂ : str_lt b c = true) : str_lt a c = true :=
  chars_lt_trans h₁ h₂

theorem str_trichotomy (a b : String) :
    str_lt a b = true ∨ a = b ∨ str_lt b a = true := by
  rcases chars_lt_trichotomy a.data b.data with h | h | h
  · exact Or.inl h
  · refine Or.inr (Or.inl ?_)
    cases a
    cases b
    exact congrArg String.mk h
  · exact Or.inr (Or.inr h)

theorem pair_le_refl (a : String × String) : pair_le a a = true := by
  simp [pair_le]

theorem pair_le_total (a b : String × String) :
    pair_le a b = true ∨ pair_le b a = true := by
  rcases str_trichotomy a.1 b.1 with h | h | h
  · exact Or.inl (by simp [pair_le, h])
  · rcases str_trichotomy a.2 b.2 with h2 | h2 | h2
    · exact Or.inl (by simp [pair_le, h, h2])
    · exact Or.inl (by simp [pair_le, h, h2])
    · exact Or.inr (by simp [pair_le, h.symm, h2])
  · exact Or.inr (by simp [pair_le, h])

theorem pair_le_trans {a b c : String × String} (h₁ : pair_le a b = true)
    (h₂ : pair_le b c = true) : pair_le a c = true := by
  simp only [pair_le, Bool.or_eq_true, Bool.and_eq_true, decide_eq_true_eq]
    at h₁ h₂ ⊢
  rcases h₁ with h1 | ⟨h1e, h1r⟩
  · rcases h₂ with h2 | ⟨h2e, _⟩
    · exact Or.inl (str_lt_trans h1 h2)
    · exact Or.inl (h2e ▸ h1)
  · rcases h₂ with h2 | ⟨h2e, h2r⟩
    · exact Or.inl (by rw [h1e]; exact h2)
    · refine Or.inr ⟨h1e.trans h2e, ?_⟩
      rcases h1r with h1r | h1r <;> rcases h2r with h2r | h2r
      · exact Or.inl (str_lt_trans h1r h2r)
      · exact Or.inl (h2r ▸ h1r)
      · exact Or.inl (by rw [h1r]; exact h2r)
      · exact Or.inr (h1r.trans h2r)

instance : IsTotal NormalizedImage image_le :=
  ⟨fun a b => pair_le_total (image_key a) (image_key b)⟩

instance : IsTrans NormalizedImage image_le :=
  ⟨fun _ _ _ h h' => pair_le_trans h h'⟩

theorem image_le_of_key_eq {a b : NormalizedImage}
    (h : image_key a = image_key b) : image_le a b := by
  unfold image_le
  rw [h]
  exact pair_le_refl _

theorem filter_orderedInsert_of_ne {α κ : Type} [DecidableEq κ]
    (r : α → α → Prop) [DecidableRel r] (key : α → κ) {a : α} {k : κ}
    (ha : key a ≠ k) :
    ∀ s : List α, ((s.orderedInsert r a).filter (fun x => decide (key x = k))) =
      s.filter (fun x => decide (key x = k))
  | [] => by simp [List.orderedInsert, ha]
  | b :: s => by
    by_cases hr : r a b
    · simp [List.orderedInsert, hr, List.filter_cons, ha]
    · simp [List.orderedInsert, hr, List.filter_cons,
        filter_orderedInsert_of_ne r key ha s]

theorem filter_orderedInsert_of_eq {α κ : Type} [DecidableEq κ]
    (r : α → α → Prop) [DecidableRel r] (key : α → κ)
    (hrefl : ∀ x y, key x = key y → r x y) (a : α) :
    ∀ s : List α,
      ((s.orderedInsert r a).filter (fun x => decide (key x = key a))) =
        a :: s.filter (fun x => decide (key x = key a))
  | [] => by simp [List.orderedInsert]
  | b :: s => by
    by_cases hr : r a b
    · simp [List.orderedInsert, hr, List.filter_cons]
    · have hbk : key b ≠ key a := fun h => hr (hrefl a b h.symm)
      simp [List.orderedInsert, hr, List.filter_cons, hbk,
        filter_orderedInsert_of_eq r key hrefl a s]

/-- A stable sort leaves the relative order of elements with any fixed key
unchanged: filtering the sorted output by one key value gives exactly the
filtered input. -/
theorem filter_insertionSort {α κ : Type} [DecidableEq κ]
    (r : α → α → Prop) [DecidableRel r] (key : α → κ)
    (hrefl : ∀ x y, key x = key y → r x y) (k : κ) :
    ∀ l : List α, ((l.insertionSort r).filter (fun x => decide (key x = k))) =
      l.filter (fun x => decide (key x = k))
  | [] => rfl
  | a :: l => by
    by_cases hk : key a = k
    · subst hk
      rw [List.insertionSort, filter_orderedInsert_of_eq r key hrefl a _,
        filter_insertionSort r key hrefl (key a) l]
      simp [List.filter_cons]
    · rw [List.insertionSort, filter_orderedInsert_of_ne r key hk _,
        filter_insertionSort r key hrefl k l]
      simp [List.filter_cons, hk]


theorem getD_none_eq_join {α : Type} : ∀ o : Option (Option α), o.getD none = o.join
  | none => rfl
  | some _ => rfl

/-- C1: for every catalog item and region id, if `region_prices` contains a
matching entry then `resolve_price` returns the values of the first matching
entry, a present field overriding and an absent field falling back to the
running (base) value; if no entry matches, it returns the base values
unchanged.  (The `float_pair` step converts the selected values and is the
identity whenever both are present.) -/
theorem pick_price_region_override_spec (item : CatalogItem) (region_id : String) :
    (∀ l₁ rp l₂, region_prices_list item = l₁ ++ rp :: l₂ →
        rp_matches region_id rp = true →
        (∀ rp' ∈ l₁, rp_matches region_id rp' = false) →
        pick_price item region_id =
          float_pair (rp.hourly.getD (base_hourly item))
            (rp.monthly.getD (base_monthly item))) ∧
    ((∀ rp ∈ region_prices_list item, rp_matches region_id rp = false) →
        pick_price item region_id =
          float_pair (base_hourly item) (base_monthly item)) := by
  constructor
  · intro l₁ rp l₂ hsplit hm hnone
    have h1 : l₁.find? (rp_matches region_id) = none :=
      List.find?_eq_none.mpr (fun x hx => by simp [hnone x hx])
    have hfind : (region_prices_list item).find? (rp_matches region_id) = some rp := by
      rw [hsplit, List.find?_append, h1]
      simp [List.find?_cons_of_pos, hm]
    unfold pick_price
    rw [hfind]
  · intro hnone
    have hfind : (region_prices_list item).find? (rp_matches region_id) = none :=
      List.find?_eq_none.mpr (fun x hx => by simp [hnone x hx])
    unfold pick_price
    rw [hfind]

/-- Witness for C1: with the `rp_w` override, the matching region yields the
overridden hourly and the base monthly; a non-matching region yields the base
pair. -/
theorem pick_price_region_override_spec_witness :
    pick_price item_w "us-east" = some (9, 5) ∧
    pick_price item_w "eu-west" = some (3, 5) :=
  ⟨((pick_price_region_override_spec item_w "us-east").1 [] rp_w [] rfl
      (by decide) (by decide)).trans (by decide),
    ((pick_price_region_override_spec item_w "eu-west").2 (by decide)).trans
      (by decide)⟩

/-- C6 counterexample: on an item with no base price and no override,
`resolve_price` produces no result at all (the Python call raises `TypeError`
at `float(None)`), rather than yielding a result whose price field is a
non-finite number. -/
theorem pick_price_missing_price_cex :
    pick_price item_bare "us-east" = none := by decide

/-- C6 (amended): when the base price is absent and no matching region
override supplies a value, `resolve_price` fails — it yields no result (the
`float` conversion raises), which is a caller error condition and in
particular never a silent zero price. -/
theorem pick_price_missing_price_errors (item : CatalogItem) (region_id : String)
    (hb : base_hourly item = none) (hm : base_monthly item = none)
    (ho : ∀ rp ∈ region_prices_list item, rp_matches region_id rp = true →
      rp.hourly.join = none ∧ rp.monthly.join = none) :
    pick_price item region_id = none := by
  unfold pick_price
  rw [hb, hm]
  cases hfind : (region_prices_list item).find? (rp_matches region_id) with
  | none => rfl
  | some rp =>
    obtain ⟨h1, h2⟩ :=
      ho rp (List.mem_of_find?_eq_some hfind) (List.find?_some hfind)
    show float_pair (rp.hourly.getD none) (rp.monthly.getD none) = none
    rw [getD_none_eq_join, getD_none_eq_join, h1, h2]
    rfl

/-- Witness for C6 (amended) at the concrete `item_bare`. -/
theorem pick_price_missing_price_errors_witness :
    base_hourly item_bare = none ∧ pick_price item_bare "ap-south" = none :=
  ⟨by decide,
    pick_price_missing_price_errors item_bare "ap-south" (by decide) (by decide)
      (by decide)⟩

/-- C2 counterexample: the empty environment name is not (case-folded) `prod`
or `production`, yet `plan_dns_records` takes the production branch and plans
two records, not one. -/
theorem planned_dns_records_empty_env_cex :
    str_lower "" ≠ "prod" ∧ str_lower "" ≠ "production" ∧
    (planned_dns_records "example.com" "").length = 2 := by decide

/-- C2 (amended): if the environment name is empty or case-folds to `prod` or
`production`, `plan_dns_records` plans the `A api.root` record followed by the
`CNAME www.root → root` record; for every other (non-empty) environment name
it plans exactly the one `A` record at `env-api.root`. -/
theorem planned_dns_records_spec (root env_name : String) :
    ((env_name = "" ∨ str_lower env_name = "prod" ∨ str_lower env_name = "production") →
      planned_dns_records root env_name =
        [⟨"api." ++ root, "A", "TBD (after create)", "Proxied", "Auto"⟩,
          ⟨"www." ++ root, "CNAME", root, "Proxied", "Auto"⟩]) ∧
    (env_name ≠ "" → str_lower env_name ≠ "prod" → str_lower env_name ≠ "production" →
      planned_dns_records root env_name =
        [⟨env_name ++ "-api." ++ root, "A", "TBD (after create)", "Proxied", "Auto"⟩]) := by
  constructor
  · intro h
    unfold planned_dns_records
    rw [if_neg]
    intro hc
    rcases h with h | h | h
    · exact hc.1 h
    · exact hc.2.1 h
    · exact hc.2.2 h
  · intro h1 h2 h3
    unfold planned_dns_records
    rw [if_pos ⟨h1, h2, h3⟩]

/-- Witness for C2 (amended): `prod` plans the two production records and
`staging` plans the single staging record. -/
theorem planned_dns_records_spec_witness :
    planned_dns_records "example.com" "prod" =
      [⟨"api.example.com", "A", "TBD (after create)", "Proxied", "Auto"⟩,
        ⟨"www.example.com", "CNAME", "example.com", "Proxied", "Auto"⟩] ∧
    planned_dns_records "example.com" "staging" =
      [⟨"staging-api.example.com", "A", "TBD (after create)", "Proxied", "Auto"⟩] := by
  constructor
  · have h := (planned_dns_records_spec "example.com" "prod").1
      (Or.inr (Or.inl (by decide)))
    exact h.trans (by decide)
  · have h := (planned_dns_records_spec "example.com" "staging").2
      (by decide) (by decide) (by decide)
    exact h.trans (by decide)

/-- C3: `is_subdomain_available` is false exactly when some record has type
`A` or `CNAME` (compared case-insensitively) and a case-folded name equal to
the target (`root` case-folded when the subdomain is empty, `@`, or the root
itself; `sub.root` case-folded otherwise), and `root_domain_is_available` is
this predicate at the empty subdomain. -/
theorem subdomain_is_available_spec (records : List DnsRecord)
    (subdomain root_domain : String) :
    (subdomain_is_available records subdomain root_domain = false ↔
      ∃ rec ∈ records,
        (str_upper (rec.type.getD "") = "A" ∨ str_upper (rec.type.getD "") = "CNAME") ∧
        str_lower (rec.name.getD "") = dns_target subdomain root_domain) ∧
    root_domain_is_availabile records root_domain =
      subdomain_is_available records "" root_domain := by
  refine ⟨?_, rfl⟩
  simp [subdomain_is_available, record_blocks, List.any_eq_true]

/-- Witness for C3: a `CNAME` record whose name differs from the target only
in case makes the `dev` subdomain unavailable. -/
theorem subdomain_is_available_spec_witness :
    subdomain_is_available [⟨some "DEV.EXAMPLE.COM", some "CNAME"⟩] "dev"
      "example.com" = false := by
  refine (subdomain_is_available_spec
    [⟨some "DEV.EXAMPLE.COM", some "CNAME"⟩] "dev" "example.com").1.mpr
    ⟨⟨some "DEV.EXAMPLE.COM", some "CNAME"⟩, ?_, ?_, ?_⟩ <;> decide

/-- C4: the computed `eol_passed` flag of a normalized image is true exactly
when the image's `eol` field parses to a UTC instant at or before `now`;
an absent or unparseable `eol` always gives `eol_passed = false`. -/
theorem eol_passed_spec (fromiso : String → Option ℤ) (now : ℤ) (img : RawImage) :
    ((normalize_image fromiso now img).eol_passed = true ↔
      ∃ t, parse_iso fromiso img.eol = some t ∧ t ≤ now) ∧
    ((img.eol = none ∨ parse_iso fromiso img.eol = none) →
      (normalize_image fromiso now img).eol_passed = false) := by
  have hn : (normalize_image fromiso now img).eol_passed =
      eol_has_passed fromiso now img.eol := rfl
  constructor
  · rw [hn]
    unfold eol_has_passed
    cases hp : parse_iso fromiso img.eol with
    | none => simp
    | some t => simp
  · intro h
    have hp : parse_iso fromiso img.eol = none := by
      rcases h with h | h
      · rw [h]; rfl
      · exact h
    rw [hn]
    unfold eol_has_passed
    rw [hp]

/-- Witness for C4: an `eol` parsing to 100 has passed at `now = 150`, and an
absent `eol` has not. -/
theorem eol_passed_spec_witness :
    (normalize_image fromiso_w 150 img_live).eol_passed = true ∧
    (normalize_image fromiso_w 150 img_noeol).eol_passed = false :=
  ⟨(eol_passed_spec fromiso_w 150 img_live).1.mpr ⟨100, by decide, by decide⟩,
    (eol_passed_spec fromiso_w 150 img_noeol).2 (Or.inl rfl)⟩

/-- C8: an image declaring a non-empty `regions` list is dropped by the image
filter unless `region_id` is a member; an image with no `regions` field or an
empty list is never dropped on the basis of region (the keep predicate does
not depend on the region at all). -/
theorem image_region_gating_spec (fromiso : String → Option ℤ) (now : ℤ)
    (region_id : String) (vendor_allow need_caps : Option (List String))
    (public_only exclude_eol require_status_available : Bool) (img : RawImage) :
    (∀ regs, img.regions = some regs → regs ≠ [] → region_id ∉ regs →
      keep_image fromiso now region_id vendor_allow need_caps public_only
        exclude_eol require_status_available img = false) ∧
    ((img.regions = none ∨ img.regions = some []) →
      ∀ r₁ r₂ : String,
        keep_image fromiso now r₁ vendor_allow need_caps public_only
          exclude_eol require_status_available img =
        keep_image fromiso now r₂ vendor_allow need_caps public_only
          exclude_eol require_status_available img) := by
  constructor
  · intro regs hregs hne hnotin
    have h1 : regs.isEmpty = false := by
      cases regs with
      | nil => exact absurd rfl hne
      | cons a t => rfl
    simp [keep_image, hregs, h1, hnotin]
  · intro h r₁ r₂
    rcases h with h | h <;> simp [keep_image, h]

/-- Witness for C8: `img_regional` (regions `["us-east"]`) is dropped for
`us-west`, and for `img_live` (no regions) the keep predicate does not depend
on the region argument. -/
theorem image_region_gating_spec_witness :
    keep_image fromiso_w 50 "us-west" none none true true true img_regional = false ∧
    keep_image fromiso_w 50 "us-east" none none true true true img_live =
      keep_image fromiso_w 50 "us-west" none none true true true img_live :=
  ⟨(image_region_gating_spec fromiso_w 50 "us-west" none none true true true
      img_regional).1 ["us-east"] rfl (by decide) (by decide),
    (image_region_gating_spec fromiso_w 50 "us-east" none none true true true
      img_live).2 (Or.inl rfl) "us-east" "us-west"⟩

/-- C9: the image filter output is sorted ascending by the key
`(vendor case-folded, label case-folded)` and the sort is stable: for every
key value, the output restricted to that key equals the pre-sort list (the
surviving images in input order) restricted to that key. -/
theorem filter_images_sorted_stable_spec (fromiso : String → Option ℤ) (now : ℤ)
    (images_resp : ImagesResp) (region_id : String)
    (include_vendors : Option (List String))
    (public_only exclude_eol require_status_available : Bool)
    (required_capabilities : Option (List String)) :
    (filter_images fromiso now images_resp region_id include_vendors public_only
        exclude_eol require_status_available required_capabilities).Pairwise image_le ∧
    (filter_images fromiso now images_resp region_id include_vendors public_only
        exclude_eol require_status_available required_capabilities).Perm
      (images_presort fromiso now images_resp region_id include_vendors public_only
        exclude_eol require_status_available required_capabilities) ∧
    ∀ k, (filter_images fromiso now images_resp region_id include_vendors public_only
        exclude_eol require_status_available required_capabilities).filter
          (fun x => decide (image_key x = k)) =
      (images_presort fromiso now images_resp region_id include_vendors public_only
        exclude_eol require_status_available required_capabilities).filter
          (fun x => decide (image_key x = k)) := by
  have heq : filter_images fromiso now images_resp region_id include_vendors
      public_only exclude_eol require_status_available required_capabilities =
      (images_presort fromiso now images_resp region_id include_vendors public_only
        exclude_eol require_status_available required_capabilities).insertionSort
        image_le := rfl
  rw [heq]
  exact ⟨List.sorted_insertionSort image_le _, List.perm_insertionSort image_le _,
    fun k => filter_insertionSort image_le image_key
      (fun x y h => image_le_of_key_eq h) k _⟩

/-- Witness for C9 at a concrete two-image payload. -/
theorem filter_images_sorted_stable_spec_witness :
    (filter_images fromiso_w 50 ⟨some [img_live, img_regional]⟩ "us-east" none
      true true true none).Pairwise image_le :=
  (filter_images_sorted_stable_spec fromiso_w 50 ⟨some [img_live, img_regional]⟩
    "us-east" none true true true none).1

/-- C10: a non-empty `include_vendors` list all of whose entries are blank
normalizes to an empty — but still active — vendor allow-set, so the image
filter drops every image and returns the empty list. -/
theorem filter_images_blank_vendor_allowlist (fromiso : String → Option ℤ) (now : ℤ)
    (images_resp : ImagesResp) (region_id : String) (l : List String)
    (public_only exclude_eol require_status_available : Bool)
    (required_capabilities : Option (List String))
    (hne : l ≠ []) (hblank : ∀ v ∈ l, str_strip v = "") :
    filter_images fromiso now images_resp region_id (some l) public_only
      exclude_eol require_status_available required_capabilities = [] := by
  have hisempty : l.isEmpty = false := by
    cases l with
    | nil => exact absurd rfl hne
    | cons a t => rfl
  have hfm : l.filterMap
      (fun v => if str_strip v = "" then none else some (str_lower (str_strip v))) = [] :=
    List.filterMap_eq_nil_iff.mpr (fun v hv => by simp [hblank v hv])
  have hallow : mk_vendor_allow (some l) = some [] := by
    unfold mk_vendor_allow
    simp [hisempty, hfm]
  have hkeep : ∀ img, keep_image fromiso now region_id (some [])
      (mk_need_caps required_capabilities) public_only exclude_eol
      require_status_available img = false := by
    intro img
    simp [keep_image]
  have hpre : images_presort fromiso now images_resp region_id (some l) public_only
      exclude_eol require_status_available required_capabilities = [] := by
    unfold images_presort
    rw [hallow]
    rw [List.filter_eq_nil_iff.mpr (fun img _ => by simp [hkeep img])]
    rfl
  have heq : filter_images fromiso now images_resp region_id (some l) public_only
      exclude_eol require_status_available required_capabilities =
      (images_presort fromiso now images_resp region_id (some l) public_only
        exclude_eol require_status_available required_capabilities).insertionSort
        image_le := rfl
  rw [heq, hpre]
  rfl

/-- Witness for C10 at a concrete payload and the blank allow-list
`["", " "]`. -/
theorem filter_images_blank_vendor_allowlist_witness :
    filter_images fromiso_w 50 ⟨some [img_live]⟩ "us-east" (some ["", " "])
      true true true none = [] :=
  filter_images_blank_vendor_allowlist fromiso_w 50 ⟨some [img_live]⟩ "us-east"
    ["", " "] true true true none (by decide) (by decide)

/-- C5 counterexample: with identical payload and parameters, two calls at
different clock instants (50 and 150, around the image's end-of-life at 100)
return different results — the function reads `datetime.now`, state outside
its argument list. -/
theorem filter_images_clock_dependence_cex :
    filter_images fromiso_w 50 ⟨some [img_live]⟩ "us-east" none true true true none ≠
    filter_images fromiso_w 150 ⟨some [img_live]⟩ "us-east" none true true true none := by
  decide

/-- C5 (amended): the image filter is a pure function of its arguments, the
external parser and the clock; the clock enters only through the per-image
end-of-life comparison, so two calls whose clock readings classify every
image's `eol` identically return identical lists in identical order. -/
theorem filter_images_deterministic_given_clock (fromiso : String → Option ℤ)
    (now₁ now₂ : ℤ) (images_resp : ImagesResp) (region_id : String)
    (include_vendors : Option (List String))
    (public_only exclude_eol require_status_available : Bool)
    (required_capabilities : Option (List String))
    (h : ∀ img ∈ images_resp.data.getD [],
      eol_has_passed fromiso now₁ img.eol = eol_has_passed fromiso now₂ img.eol) :
    filter_images fromiso now₁ images_resp region_id include_vendors public_only
      exclude_eol require_status_available required_capabilities =
    filter_images fromiso now₂ images_resp region_id include_vendors public_only
      exclude_eol require_status_available required_capabilities := by
  have hfil : (images_resp.data.getD []).filter
      (keep_image fromiso now₁ region_id (mk_vendor_allow include_vendors)
        (mk_need_caps required_capabilities) public_only exclude_eol
        require_status_available) =
      (images_resp.data.getD []).filter
      (keep_image fromiso now₂ region_id (mk_vendor_allow include_vendors)
        (mk_need_caps required_capabilities) public_only exclude_eol
        require_status_available) := by
    apply List.filter_congr
    intro img himg
    unfold keep_image
    rw [h img himg]
  have hpre : images_presort fromiso now₁ images_resp region_id include_vendors
      public_only exclude_eol require_status_available required_capabilities =
      images_presort fromiso now₂ images_resp region_id include_vendors
      public_only exclude_eol require_status_available required_capabilities := by
    unfold images_presort
    rw [hfil]
    apply List.map_congr_left
    intro img himg
    unfold normalize_image
    rw [h img (List.mem_of_mem_filter himg)]
  show (images_presort fromiso now₁ images_resp region_id include_vendors
      public_only exclude_eol require_status_available
      required_capabilities).insertionSort image_le =
    (images_presort fromiso now₂ images_resp region_id include_vendors
      public_only exclude_eol require_status_available
      required_capabilities).insertionSort image_le
  rw [hpre]

/-- Witness for C5 (amended): two clock instants on the same side of the
image's end-of-life give identical output. -/
theorem filter_images_deterministic_given_clock_witness :
    filter_images fromiso_w 50 ⟨some [img_live]⟩ "us-east" none true true true none =
    filter_images fromiso_w 60 ⟨some [img_live]⟩ "us-east" none true true true none :=
  filter_images_deterministic_given_clock fromiso_w 50 60 ⟨some [img_live]⟩
    "us-east" none true true true none (by decide)

/-- C7 counterexample: a payload holding a class-passing item with no
resolvable price makes the whole call fail (`float(None)` raises), so no item
at all is included, against the claim's unconditional inclusion iff. -/
theorem get_instances_unpriceable_cex :
    class_keep none item_unpriced = true ∧
    get_instances_for_region ⟨some [item_unpriced]⟩ "us-east" none = none := by
  decide

theorem instances_go_ids (region_id : String) (include_classes : Option (List String)) :
    ∀ l out, instances_go region_id include_classes l = some out →
      out.map (fun x => x.id) =
        (l.filter (class_keep include_classes)).map (fun itm => itm.id) := by
  intro l
  induction l with
  | nil =>
    intro out h
    simp [instances_go] at h
    subst h
    rfl
  | cons itm rest ih =>
    intro out h
    by_cases hk : class_keep include_classes itm = true
    · simp only [instances_go, if_pos hk] at h
      cases hp : pick_price itm region_id with
      | none =>
        rw [hp] at h
        cases hb : pick_backup_price itm region_id <;> rw [hb] at h <;> simp at h
      | some price =>
        rw [hp] at h
        cases hb : pick_backup_price itm region_id with
        | none =>
          rw [hb] at h
          simp at h
        | some bp =>
          rw [hb] at h
          simp only [Option.map_eq_some'] at h
          obtain ⟨tail, htail, hout⟩ := h
          subst hout
          simp [List.filter_cons, hk, ih tail htail, normalize_instance]
    · have hk' : class_keep include_classes itm = false := by
        cases hcc : class_keep include_classes itm with
        | false => rfl
        | true => exact absurd hcc hk
      simp only [instances_go, hk', if_neg] at h
      rw [List.filter_cons]
      simp only [hk']
      exact ih out h

/-- C7 (amended): whenever the instance call yields an output (every
class-passing item's prices resolve), the output's id sequence equals the id
sequence of the class-filtered catalog — an item is included iff
`include_classes` is empty/absent or contains its class, in catalog input
order; the separate display sort orders ascending by `price_monthly`,
permuting nothing else and keeping ties in input order (stable). -/
theorem get_instances_filter_order_spec :
    (∀ (resp : TypesResp) (region_id : String)
        (include_classes : Option (List String)) out,
      get_instances_for_region resp region_id include_classes = some out →
      out.map (fun x => x.id) =
        ((resp.data.getD []).filter (class_keep include_classes)).map
          (fun itm => itm.id)) ∧
    (∀ l : List NormalizedInstance,
      (choose_instance_sorted l).Pairwise price_le ∧
      (choose_instance_sorted l).Perm l ∧
      ∀ q : ℚ, (choose_instance_sorted l).filter
          (fun x => decide (x.price_monthly = q)) =
        l.filter (fun x => decide (x.price_monthly = q))) := by
  constructor
  · intro resp region_id ic out h
    exact instances_go_ids region_id ic (resp.data.getD []) out h
  · intro l
    exact ⟨List.sorted_insertionSort price_le l, List.perm_insertionSort price_le l,
      fun q => filter_insertionSort price_le (fun x => x.price_monthly)
        (fun x y h => le_of_eq h) q l⟩

/-- Witness for C7 (amended) on a concrete two-item payload filtered to the
`standard` class. -/
theorem get_instances_filter_order_spec_witness :
    out_w.map (fun x => x.id) =
      ((resp_w.data.getD []).filter (class_keep (some ["standard"]))).map
        (fun itm => itm.id) ∧
    (choose_instance_sorted []).Pairwise price_le :=
  ⟨(get_instances_filter_order_spec).1 resp_w "us-east" (some ["standard"]) out_w
      (by decide),
    ((get_instances_filter_order_spec).2 []).1⟩

end Scaletrail
